import Mathlib

/-!
Verification of the `rtl-detect` locale parser and RTL classifier
(`src/index.ts`, class `RtlLanguageDetector`).

JavaScript strings are modelled as lists of UTF-16 code units (natural
numbers).  The two regular expressions of the source,

  REGEX_PARSE_LOCALE_PERMISSIVE = `/^([a-zA-Z]*)([_\-a-zA-Z]*)$/`
  REGEX_PARSE_LOCALE_STRICT     = `/^([a-zA-Z]{2,3})(?:[-_]([a-zA-Z]{2,3}))?(?:[-_]([a-zA-Z0-9]+))?$/`

are embedded as executable matchers that follow the greedy, prioritized
backtracking semantics of JavaScript `RegExp.prototype.exec` on these
anchored patterns.
-/

namespace RtlDetect

/-- A JS string modelled as its list of UTF-16 code units. -/
abbrev Str := List Nat

/-- Code units of a Lean string literal (all inputs used here are ASCII,
where Lean code points and UTF-16 code units agree). -/
def str (s : String) : Str := s.data.map Char.toNat

/-- Character class `[a-zA-Z]`. -/
def isAsciiLetter (c : Nat) : Bool :=
  (decide (65 ≤ c) && decide (c ≤ 90)) || (decide (97 ≤ c) && decide (c ≤ 122))

/-- Character class `[0-9]`. -/
def isAsciiDigit (c : Nat) : Bool := decide (48 ≤ c) && decide (c ≤ 57)

/-- Character class `[a-zA-Z0-9]`. -/
def isAlnum (c : Nat) : Bool := isAsciiLetter c || isAsciiDigit c

/-- Character class `[-_]` (code units 45 and 95). -/
def isSep (c : Nat) : Bool := decide (c = 45) || decide (c = 95)

/-- Effect of `String.prototype.toLowerCase` on one ASCII code unit. -/
def toLowerCh (c : Nat) : Nat := if 65 ≤ c ∧ c ≤ 90 then c + 32 else c

/-- Effect of `String.prototype.toUpperCase` on one ASCII code unit. -/
def toUpperCh (c : Nat) : Nat := if 97 ≤ c ∧ c ≤ 122 then c - 32 else c

/-- `locale.split(/[.@]/)[0]` : everything before the first `.` (46) or `@` (64). -/
def splitSuffix (s : Str) : Str :=
  s.takeWhile (fun c => !(decide (c = 46) || decide (c = 64)))

/-- `REGEX_PARSE_LOCALE_PERMISSIVE` executed on `s`.  The greedy group 1 takes
the maximal leading letter run; the anchored match succeeds iff every remaining
character is a separator or a letter, group 2 being that remainder. -/
def execPermissive (s : Str) : Option (Str × Str) :=
  if (s.dropWhile isAsciiLetter).all (fun c => isSep c || isAsciiLetter c) then
    some (s.takeWhile isAsciiLetter, s.dropWhile isAsciiLetter)
  else none

/-- The tail `(?:[-_]([a-zA-Z0-9]+))?$` of the strict regex matched against
`rest`: either `rest` is empty (group absent), or it is a separator followed by
a non-empty all-alphanumeric run (the greedy `+` must reach the end). -/
def execVariantTail (rest : Str) : Option (Option Str) :=
  match rest with
  | [] => some none
  | c :: cs =>
      if isSep c && !cs.isEmpty && cs.all isAlnum then some (some cs) else none

/-- One backtracking alternative of `(?:[-_]([a-zA-Z]{2,3}))?` : a separator
followed by exactly `n` letters, then the variant tail. -/
def tryCountry (n : Nat) (rest : Str) : Option (Str × Option Str) :=
  match rest with
  | [] => none
  | c :: cs =>
      if isSep c && decide ((cs.take n).length = n) && (cs.take n).all isAsciiLetter then
        (execVariantTail (cs.drop n)).map (fun v => (cs.take n, v))
      else none

/-- `(?:[-_]([a-zA-Z]{2,3}))?(?:[-_]([a-zA-Z0-9]+))?$` with the backtracking
priority of a greedy quantifier: a country of 3 letters is tried first, then 2,
then the country group is left absent. -/
def execCountryTail (rest : Str) : Option (Option Str × Option Str) :=
  match tryCountry 3 rest with
  | some (cc, v) => some (some cc, v)
  | none =>
      match tryCountry 2 rest with
      | some (cc, v) => some (some cc, v)
      | none => (execVariantTail rest).map (fun v => ((none : Option Str), v))

/-- One backtracking alternative of the language group `([a-zA-Z]{2,3})` :
exactly `n` leading letters, then the country/variant tail. -/
def tryLang (n : Nat) (s : Str) : Option (Str × Option Str × Option Str) :=
  if decide ((s.take n).length = n) && (s.take n).all isAsciiLetter then
    (execCountryTail (s.drop n)).map (fun p => (s.take n, p.1, p.2))
  else none

/-- `REGEX_PARSE_LOCALE_STRICT` executed on `s`, greedy: a language group of 3
letters is tried before 2.  Returns (language, country group, variant group). -/
def execStrict (s : Str) : Option (Str × Option Str × Option Str) :=
  match tryLang 3 s with
  | some r => some r
  | none => tryLang 2 s

/-- The interface `ParsedLocaleInfo` of the source. -/
structure ParsedLocaleInfo where
  language : Str
  countryCode : Option Str
deriving DecidableEq, Repr

/-- `RtlLanguageDetector.parseLocale`, line for line: empty-input guard, suffix
stripping, strict match with permissive fallback (`??`), falsy test on group 1
(`!matches?.[1]`), lowercasing, the `length < 2` guard, then separator
stripping and uppercasing of the raw country group (`matches[2] || ''`), an
empty result meaning an absent `countryCode`. -/
def parseLocale (locale : Str) : Option ParsedLocaleInfo :=
  if locale.isEmpty then none
  else
    let normalized := splitSuffix locale
    let ms : Option (Str × Option Str) :=
      match execStrict normalized with
      | some (g1, cc, _) => some (g1, cc)
      | none => (execPermissive normalized).map (fun p => (p.1, some p.2))
    match ms with
    | none => none
    | some (g1, g2) =>
      if g1.isEmpty then none
      else
        let language := g1.map toLowerCh
        if language.length < 2 then none
        else
          let rawCountryCode := g2.getD []
          let stripped := (rawCountryCode.filter (fun c => !isSep c)).map toUpperCh
          let countryCode := if stripped.isEmpty then none else some stripped
          some { language := language, countryCode := countryCode }

/-- The literal array handed to `new Set([...])`, in source order. -/
def RTL_LANGUAGE_CODES_LITERAL : List Str :=
  [str "ae", str "ar", str "arc", str "bcc", str "bqi", str "ckb", str "dv",
   str "fa", str "glk", str "he", str "iw", str "kd", str "ku", str "mzn",
   str "nqo", str "pk", str "pnb", str "prs", str "ps", str "sd", str "syr",
   str "ug", str "ur", str "yi"]

/-- A JS `Set` built from a list keeps the first occurrence of each element,
in insertion order. -/
def setFromList (l : List Str) : List Str :=
  l.foldl (fun acc x => if x ∈ acc then acc else acc ++ [x]) []

/-- `RTL_LANGUAGE_CODES = new Set([...])`, as its insertion-ordered element list. -/
def RTL_LANGUAGE_CODES : List Str := setFromList RTL_LANGUAGE_CODES_LITERAL

/-- `RtlLanguageDetector.getRtlLanguageCodes` : `Object.freeze(Array.from(RTL_LANGUAGE_CODES))`.
`Object.freeze` is modelled by the value semantics of the embedding. -/
def getRtlLanguageCodes : List Str := RTL_LANGUAGE_CODES

/-- `RtlLanguageDetector.isRtlLanguage` : parse, then test set membership of
the parsed language; an unparseable locale is never RTL. -/
def isRtlLanguage (locale : Str) : Bool :=
  match parseLocale locale with
  | some parsed => RTL_LANGUAGE_CODES.contains parsed.language
  | none => false

/-- The union type `TextDirection = 'rtl' | 'ltr'`. -/
inductive TextDirection
  | rtl
  | ltr
deriving DecidableEq, Repr

/-- `RtlLanguageDetector.getTextDirection`. -/
def getTextDirection (locale : Str) : TextDirection :=
  if isRtlLanguage locale then .rtl else .ltr

/-- The country-code post-processing of `parseLocale` :
`matches[2] || ''`, separator stripping, uppercasing, empty means absent. -/
def mkCountryCode (g2 : Option Str) : Option Str :=
  let stripped := ((g2.getD []).filter (fun c => !isSep c)).map toUpperCh
  if stripped.isEmpty then none else some stripped

/-- Lower-case ASCII letter (class `[a-z]`), used to state invariants. -/
def isAsciiLowerCh (c : Nat) : Bool := decide (97 ≤ c) && decide (c ≤ 122)

/-- Upper-case ASCII letter (class `[A-Z]`), used to state invariants. -/
def isAsciiUpperCh (c : Nat) : Bool := decide (65 ≤ c) && decide (c ≤ 90)

/-! ### Character-class facts -/

lemma isAsciiLetter_iff {c : Nat} :
    isAsciiLetter c = true ↔ (65 ≤ c ∧ c ≤ 90) ∨ (97 ≤ c ∧ c ≤ 122) := by
  simp [isAsciiLetter]

lemma isAlnum_iff {c : Nat} :
    isAlnum c = true ↔ (65 ≤ c ∧ c ≤ 90) ∨ (97 ≤ c ∧ c ≤ 122) ∨ (48 ≤ c ∧ c ≤ 57) := by
  simp [isAlnum, isAsciiLetter, isAsciiDigit]
  tauto

lemma isSep_of_letter {c : Nat} (h : isAsciiLetter c = true) : isSep c = false := by
  rw [isAsciiLetter_iff] at h
  simp [isSep]
  omega

lemma isSep_of_alnum {c : Nat} (h : isAlnum c = true) : isSep c = false := by
  rw [isAlnum_iff] at h
  simp [isSep]
  omega

lemma isAsciiLetter_of_sep {c : Nat} (h : isSep c = true) : isAsciiLetter c = false := by
  simp [isSep] at h
  rw [Bool.eq_false_iff, Ne, isAsciiLetter_iff]
  omega

lemma toLowerCh_of_letter {c : Nat} (h : isAsciiLetter c = true) :
    97 ≤ toLowerCh c ∧ toLowerCh c ≤ 122 := by
  rw [isAsciiLetter_iff] at h
  unfold toLowerCh
  split <;> omega

lemma toUpperCh_of_letter {c : Nat} (h : isAsciiLetter c = true) :
    65 ≤ toUpperCh c ∧ toUpperCh c ≤ 90 := by
  rw [isAsciiLetter_iff] at h
  unfold toUpperCh
  split <;> omega

/-- No letter, digit or separator is one of the stripped characters `.` / `@`. -/
lemma notDotAt_of_keep {c : Nat}
    (h : isAlnum c = true ∨ isSep c = true) :
    (!(decide (c = 46) || decide (c = 64))) = true := by
  rcases h with h | h
  · rw [isAlnum_iff] at h
    simp
    omega
  · simp [isSep] at h
    simp
    omega

/-! ### splitSuffix facts -/

lemma splitSuffix_eq_self {s : Str}
    (h : ∀ c ∈ s, isAlnum c = true ∨ isSep c = true) : splitSuffix s = s := by
  rw [splitSuffix, List.takeWhile_eq_self_iff]
  intro c hc
  exact notDotAt_of_keep (h c hc)

lemma splitSuffix_idem (s : Str) : splitSuffix (splitSuffix s) = splitSuffix s := by
  rw [splitSuffix, List.takeWhile_eq_self_iff]
  intro c hc
  rw [splitSuffix] at hc
  have h2 := List.mem_takeWhile_imp hc
  exact h2

/-! ### Matcher facts -/

lemma execPermissive_of_letters {s : Str} (h : ∀ c ∈ s, isAsciiLetter c = true) :
    execPermissive s = some (s, []) := by
  rw [execPermissive, List.dropWhile_eq_nil_iff.mpr h, List.takeWhile_eq_self_iff.mpr h]
  simp

lemma execCountryTail_nil : execCountryTail [] = some (none, none) := rfl

lemma execCountryTail_letter_head {x : Nat} {rest : Str} (hx : isAsciiLetter x = true) :
    execCountryTail (x :: rest) = none := by
  have hs : isSep x = false := isSep_of_letter hx
  simp [execCountryTail, tryCountry, execVariantTail, hs]

lemma execStrict_of_long_letters {s : Str} (h : ∀ c ∈ s, isAsciiLetter c = true)
    (h4 : 4 ≤ s.length) : execStrict s = none := by
  match s with
  | a :: b :: c :: d :: t =>
    have ha := h a (by simp)
    have hb := h b (by simp)
    have hc := h c (by simp)
    have hd := h d (by simp)
    have e3 : (a :: b :: c :: d :: t).take 3 = [a, b, c] := rfl
    have e3d : (a :: b :: c :: d :: t).drop 3 = d :: t := rfl
    have e2 : (a :: b :: c :: d :: t).take 2 = [a, b] := rfl
    have e2d : (a :: b :: c :: d :: t).drop 2 = c :: d :: t := rfl
    rw [execStrict, tryLang, tryLang, e3, e3d, e2, e2d,
      execCountryTail_letter_head hd, execCountryTail_letter_head hc]
    simp [ha, hb, hc]

lemma execCountryTail_sep_letters {sep : Nat} {cc : Str} (hsep : isSep sep = true)
    (hcc : cc.all isAsciiLetter = true) (h2 : 2 ≤ cc.length) (h3 : cc.length ≤ 3) :
    execCountryTail (sep :: cc) = some (some cc, none) := by
  match cc, h2, h3 with
  | [d, e], _, _ =>
    simp only [List.all_cons, List.all_nil, Bool.and_eq_true] at hcc
    simp [execCountryTail, tryCountry, execVariantTail, hsep, hcc]
  | [d, e, f], _, _ =>
    simp only [List.all_cons, List.all_nil, Bool.and_eq_true] at hcc
    simp [execCountryTail, tryCountry, execVariantTail, hsep, hcc]

lemma execCountryTail_sep_alnum {sep : Nat} {cc : Str} (hsep : isSep sep = true)
    (hcc : cc.all isAlnum = true) (hnl : cc.all isAsciiLetter = false)
    (h2 : 2 ≤ cc.length) (h3 : cc.length ≤ 3) :
    execCountryTail (sep :: cc) = some (none, some cc) := by
  match cc, h2, h3 with
  | [d, e], _, _ =>
    simp only [List.all_cons, List.all_nil, Bool.and_eq_true] at hcc
    obtain ⟨hd, he, -⟩ := hcc
    simp [execCountryTail, tryCountry, execVariantTail, hsep, hnl, hd, he]
  | [d, e, f], _, _ =>
    simp only [List.all_cons, List.all_nil, Bool.and_eq_true] at hcc
    obtain ⟨hd, he, hf, -⟩ := hcc
    have hf2 : isSep f = false := isSep_of_alnum hf
    have e3 : ([d, e, f] : Str).take 3 = [d, e, f] := rfl
    have e2 : ([d, e, f] : Str).take 2 = [d, e] := rfl
    rw [execCountryTail, tryCountry, tryCountry, e3, e2]
    have hnl3 : ([d, e, f] : Str).all isAsciiLetter = false := hnl
    by_cases hde : isAsciiLetter d = true ∧ isAsciiLetter e = true
    · simp [execVariantTail, hsep, hnl3, hde.1, hde.2, hf2, hd, he, hf]
    · rw [Classical.not_and_iff_or_not_not] at hde
      rcases hde with hde | hde
      · simp [execVariantTail, hsep, hnl3, Bool.eq_false_iff.mpr hde, hd, he, hf]
      · simp [execVariantTail, hsep, hnl3, Bool.eq_false_iff.mpr hde, hd, he, hf]

lemma execStrict_lang_sep {lang : Str} {sep : Nat} {tail : Str} {r : Option Str × Option Str}
    (hlang : lang.all isAsciiLetter = true) (h2 : 2 ≤ lang.length) (h3 : lang.length ≤ 3)
    (hsep : isSep sep = true)
    (hct : execCountryTail (sep :: tail) = some r) :
    execStrict (lang ++ sep :: tail) = some (lang, r.1, r.2) := by
  have hsl : isAsciiLetter sep = false := isAsciiLetter_of_sep hsep
  match lang, h2, h3 with
  | [a, b], _, _ =>
    simp only [List.all_cons, List.all_nil, Bool.and_eq_true] at hlang
    obtain ⟨ha, hb, -⟩ := hlang
    have e3 : ([a, b] ++ sep :: tail).take 3 = [a, b, sep] := rfl
    have e2 : ([a, b] ++ sep :: tail).take 2 = [a, b] := rfl
    have e2d : ([a, b] ++ sep :: tail).drop 2 = sep :: tail := rfl
    rw [execStrict, tryLang, tryLang, e3, e2, e2d, hct]
    simp [ha, hb, hsl]
  | [a, b, c], _, _ =>
    simp only [List.all_cons, List.all_nil, Bool.and_eq_true] at hlang
    obtain ⟨ha, hb, hc, -⟩ := hlang
    have e3 : ([a, b, c] ++ sep :: tail).take 3 = [a, b, c] := rfl
    have e3d : ([a, b, c] ++ sep :: tail).drop 3 = sep :: tail := rfl
    rw [execStrict, tryLang, e3, e3d, hct]
    simp [ha, hb, hc]

lemma execStrict_of_short_letters {s : Str} (h : s.all isAsciiLetter = true)
    (h2 : 2 ≤ s.length) (h3 : s.length ≤ 3) :
    execStrict s = some (s, none, none) := by
  match s, h2, h3 with
  | [a, b], _, _ =>
    simp only [List.all_cons, List.all_nil, Bool.and_eq_true] at h
    obtain ⟨ha, hb, -⟩ := h
    rw [execStrict, tryLang, tryLang]
    simp [ha, hb, execCountryTail_nil]
  | [a, b, c], _, _ =>
    simp only [List.all_cons, List.all_nil, Bool.and_eq_true] at h
    obtain ⟨ha, hb, hc, -⟩ := h
    rw [execStrict, tryLang]
    simp [ha, hb, hc, execCountryTail_nil]

/-! ### parseLocale assembly -/

lemma parseLocale_eq_of_strict {s g1 : Str} {cc v : Option Str}
    (hne : s.isEmpty = false) (hsplit : splitSuffix s = s)
    (hst : execStrict s = some (g1, cc, v))
    (hg1 : g1.isEmpty = false) (hlen : ¬ (g1.map toLowerCh).length < 2) :
    parseLocale s = some ⟨g1.map toLowerCh, mkCountryCode cc⟩ := by
  rw [parseLocale]
  simp only [hne, Bool.false_eq_true, if_false, hsplit, hst, hg1, hlen, if_neg, mkCountryCode]

lemma parseLocale_eq_of_permissive {s g1 g2 : Str}
    (hne : s.isEmpty = false) (hsplit : splitSuffix s = s)
    (hst : execStrict s = none) (hpm : execPermissive s = some (g1, g2))
    (hg1 : g1.isEmpty = false) (hlen : ¬ (g1.map toLowerCh).length < 2) :
    parseLocale s = some ⟨g1.map toLowerCh, mkCountryCode (some g2)⟩ := by
  rw [parseLocale]
  simp only [hne, Bool.false_eq_true, if_false, hsplit, hst, hpm, Option.map_some',
    hg1, hlen, if_neg, mkCountryCode]

lemma parseLocale_of_letters {s : Str} (h : s.all isAsciiLetter = true)
    (h2 : 2 ≤ s.length) : parseLocale s = some ⟨s.map toLowerCh, none⟩ := by
  have hmem : ∀ c ∈ s, isAsciiLetter c = true := List.all_eq_true.mp h
  have hne : s.isEmpty = false := by
    cases s with
    | nil => simp at h2
    | cons a t => rfl
  have hsplit : splitSuffix s = s :=
    splitSuffix_eq_self (fun c hc => Or.inl (by simp [isAlnum, hmem c hc]))
  have hg1 : s.isEmpty = false := hne
  have hlen : ¬ (s.map toLowerCh).length < 2 := by
    rw [List.length_map]
    omega
  by_cases h4 : 4 ≤ s.length
  · have hst := execStrict_of_long_letters hmem h4
    have hpm := execPermissive_of_letters hmem
    have := parseLocale_eq_of_permissive hne hsplit hst hpm hg1 hlen
    simpa [mkCountryCode] using this
  · have h3 : s.length ≤ 3 := by omega
    have hst := execStrict_of_short_letters h h2 h3
    have := parseLocale_eq_of_strict hne hsplit hst hg1 hlen
    simpa [mkCountryCode] using this

/-- Restatement of `parseLocale` with the lets discharged, for case analysis. -/
lemma parseLocale_eq (s : Str) :
    parseLocale s =
      if s.isEmpty then none
      else
        match (match execStrict (splitSuffix s) with
               | some (g1, cc, _) => some (g1, cc)
               | none => (execPermissive (splitSuffix s)).map
                   (fun p : Str × Str => (p.1, some p.2))) with
        | none => none
        | some (g1, g2) =>
          if g1.isEmpty then none
          else if (g1.map toLowerCh).length < 2 then none
          else some ⟨g1.map toLowerCh, mkCountryCode g2⟩ := by
  rfl

/-! ### Provenance of the regex groups -/

lemma tryCountry_spec {n : Nat} {rest cc : Str} {v : Option Str}
    (h : tryCountry n rest = some (cc, v)) :
    cc.length = n ∧ cc.all isAsciiLetter = true := by
  match rest with
  | [] => exact absurd h (by simp [tryCountry])
  | c :: cs =>
    rw [tryCountry] at h
    split at h
    case isTrue hcond =>
      rcases Option.map_eq_some'.mp h with ⟨v2, hv2, heq⟩
      simp only [Prod.mk.injEq] at heq
      obtain ⟨rfl, rfl⟩ := heq
      simp only [Bool.and_eq_true, decide_eq_true_eq] at hcond
      exact ⟨hcond.1.2, hcond.2⟩
    case isFalse => exact absurd h (by simp)

lemma tryLang_spec {n : Nat} {s g1 : Str} {cc v : Option Str}
    (h : tryLang n s = some (g1, cc, v)) :
    g1.length = n ∧ g1.all isAsciiLetter = true ∧
      execCountryTail (s.drop n) = some (cc, v) := by
  rw [tryLang] at h
  split at h
  case isTrue hcond =>
    rcases Option.map_eq_some'.mp h with ⟨⟨c2, v2⟩, hct, heq⟩
    simp only [Prod.mk.injEq] at heq
    obtain ⟨rfl, rfl, rfl⟩ := heq
    simp only [Bool.and_eq_true, decide_eq_true_eq] at hcond
    exact ⟨hcond.1, hcond.2, hct⟩
  case isFalse => exact absurd h (by simp)

lemma execCountryTail_spec {rest : Str} {cc v : Option Str}
    (h : execCountryTail rest = some (cc, v)) :
    ∀ c2, cc = some c2 → 2 ≤ c2.length ∧ c2.all isAsciiLetter = true := by
  rw [execCountryTail] at h
  rcases h3 : tryCountry 3 rest with _ | ⟨cc3, v3⟩ <;> rw [h3] at h
  · rcases h2 : tryCountry 2 rest with _ | ⟨cc2, v2⟩ <;> rw [h2] at h
    · rcases Option.map_eq_some'.mp h with ⟨v4, hv4, heq⟩
      simp only [Prod.mk.injEq] at heq
      obtain ⟨rfl, rfl⟩ := heq
      intro c2 hc2
      exact absurd hc2 (by simp)
    · simp only [Option.some.injEq, Prod.mk.injEq] at h
      obtain ⟨rfl, rfl⟩ := h
      intro c2 hc2
      obtain rfl : cc2 = c2 := by injection hc2
      obtain ⟨hl, ha⟩ := tryCountry_spec h2
      exact ⟨by omega, ha⟩
  · simp only [Option.some.injEq, Prod.mk.injEq] at h
    obtain ⟨rfl, rfl⟩ := h
    intro c2 hc2
    obtain rfl : cc3 = c2 := by injection hc2
    obtain ⟨hl, ha⟩ := tryCountry_spec h3
    exact ⟨by omega, ha⟩

lemma execStrict_spec {s g1 : Str} {cc v : Option Str}
    (h : execStrict s = some (g1, cc, v)) :
    2 ≤ g1.length ∧ g1.all isAsciiLetter = true ∧
      ∀ c2, cc = some c2 → 2 ≤ c2.length ∧ c2.all isAsciiLetter = true := by
  rw [execStrict] at h
  rcases h3 : tryLang 3 s with _ | r3 <;> rw [h3] at h
  · obtain ⟨hl, ha, hct⟩ := tryLang_spec h
    exact ⟨by omega, ha, execCountryTail_spec hct⟩
  · obtain rfl : r3 = (g1, cc, v) := by injection h
    obtain ⟨hl, ha, hct⟩ := tryLang_spec h3
    exact ⟨by omega, ha, execCountryTail_spec hct⟩

lemma execPermissive_spec {s g1 g2 : Str} (h : execPermissive s = some (g1, g2)) :
    g1.all isAsciiLetter = true ∧
      g2.all (fun c => isSep c || isAsciiLetter c) = true := by
  rw [execPermissive] at h
  split at h
  case isTrue hcond =>
    simp only [Option.some.injEq, Prod.mk.injEq] at h
    obtain ⟨rfl, rfl⟩ := h
    refine ⟨List.all_eq_true.mpr fun c hc => ?_, hcond⟩
    have h2 := List.mem_takeWhile_imp hc
    exact h2
  case isFalse => exact absurd h (by simp)

/-- Every structure `parseLocale` returns has a language of at least two
lower-case letters, and a country code, when present, of at least one
upper-case letter. -/
lemma parseLocale_spec {s : Str} {p : ParsedLocaleInfo} (h : parseLocale s = some p) :
    (2 ≤ p.language.length ∧ p.language.all isAsciiLowerCh = true) ∧
    ∀ cc, p.countryCode = some cc → cc ≠ [] ∧ cc.all isAsciiUpperCh = true := by
  have step :
      ∀ (g1 : Str) (g2o : Option Str),
        g1.all isAsciiLetter = true →
        (∀ c2, g2o = some c2 → c2.all (fun c => isSep c || isAsciiLetter c) = true) →
        (if g1.isEmpty then none
         else if (g1.map toLowerCh).length < 2 then none
         else some (⟨g1.map toLowerCh, mkCountryCode g2o⟩ : ParsedLocaleInfo)) = some p →
        (2 ≤ p.language.length ∧ p.language.all isAsciiLowerCh = true) ∧
        ∀ cc, p.countryCode = some cc → cc ≠ [] ∧ cc.all isAsciiUpperCh = true := by
    intro g1 g2o hg1 hg2 heq
    by_cases he : g1.isEmpty
    · rw [if_pos he] at heq
      exact absurd heq (by simp)
    · rw [if_neg he] at heq
      by_cases hlen : (g1.map toLowerCh).length < 2
      · rw [if_pos hlen] at heq
        exact absurd heq (by simp)
      · rw [if_neg hlen] at heq
        obtain rfl : (⟨g1.map toLowerCh, mkCountryCode g2o⟩ : ParsedLocaleInfo) = p := by
          injection heq
        constructor
        · constructor
          · show 2 ≤ (g1.map toLowerCh).length
            omega
          · show (g1.map toLowerCh).all isAsciiLowerCh = true
            refine List.all_eq_true.mpr fun x hx => ?_
            rcases List.mem_map.mp hx with ⟨c, hc, rfl⟩
            have hcl : isAsciiLetter c = true :=
              List.all_eq_true.mp hg1 c hc
            have := toLowerCh_of_letter hcl
            simp only [isAsciiLowerCh, Bool.and_eq_true, decide_eq_true_eq]
            omega
        · intro cc hcc
          replace hcc : mkCountryCode g2o = some cc := hcc
          simp only [mkCountryCode] at hcc
          by_cases hemp : (((g2o.getD []).filter (fun c => !isSep c)).map toUpperCh).isEmpty
          · rw [if_pos hemp] at hcc
            exact absurd hcc (by simp)
          · rw [if_neg hemp] at hcc
            obtain rfl : ((g2o.getD []).filter (fun c => !isSep c)).map toUpperCh = cc := by
              injection hcc
            refine ⟨by simpa using hemp, List.all_eq_true.mpr fun x hx => ?_⟩
            rcases List.mem_map.mp hx with ⟨c, hc, rfl⟩
            have hcmem := List.mem_filter.mp hc
            rcases g2o with _ | g2
            · simp at hcmem
            · have hcls := List.all_eq_true.mp (hg2 g2 rfl) c (by simpa using hcmem.1)
              have hcletter : isAsciiLetter c = true := by
                rcases (by simpa using hcls : isSep c = true ∨ isAsciiLetter c = true)
                  with hsep | hlet
                · exact absurd hsep (by simpa using hcmem.2)
                · exact hlet
              have := toUpperCh_of_letter hcletter
              simp only [isAsciiUpperCh, Bool.and_eq_true, decide_eq_true_eq]
              omega
  rw [parseLocale_eq] at h
  by_cases hse : s.isEmpty
  · rw [if_pos hse] at h
    exact absurd h (by simp)
  · rw [if_neg hse] at h
    rcases hst : execStrict (splitSuffix s) with _ | ⟨⟨g1, cc, v⟩⟩ <;> rw [hst] at h
    · rcases hpm : execPermissive (splitSuffix s) with _ | ⟨⟨g1, g2⟩⟩ <;> rw [hpm] at h
      · exact absurd h (by simp)
      · obtain ⟨ha, hb⟩ := execPermissive_spec hpm
        refine step g1 (some g2) ha (fun c2 hc2 => ?_) h
        obtain rfl : g2 = c2 := by injection hc2
        exact hb
    · obtain ⟨-, ha, hcc⟩ := execStrict_spec hst
      refine step g1 cc ha (fun c2 hc2 => ?_) h
      refine List.all_eq_true.mpr fun c hc => ?_
      have hl : isAsciiLetter c = true := List.all_eq_true.mp (hcc c2 hc2).2 c hc
      simp [hl]

lemma execStrict_nil : execStrict [] = none := rfl

lemma execPermissive_nil : execPermissive [] = some ([], []) := rfl

/-- Stripping the `.`/`@` suffix first does not change the parse result. -/
lemma parseLocale_splitSuffix (s : Str) : parseLocale (splitSuffix s) = parseLocale s := by
  cases s with
  | nil => rfl
  | cons a t =>
    by_cases hss : splitSuffix (a :: t) = []
    · rw [hss, parseLocale_eq (a :: t), hss]
      rfl
    · rw [parseLocale_eq (splitSuffix (a :: t)), parseLocale_eq (a :: t), splitSuffix_idem]
      have h1 : (splitSuffix (a :: t)).isEmpty = false := by
        simpa using hss
      rw [h1]
      rfl

lemma mkCountryCode_none : mkCountryCode none = none := rfl

lemma mkCountryCode_letters {cc : Str} (h : cc.all isAsciiLetter = true) (hne : cc ≠ []) :
    mkCountryCode (some cc) = some (cc.map toUpperCh) := by
  have hf : cc.filter (fun c => !isSep c) = cc :=
    List.filter_eq_self.mpr fun c hc => by
      simp [isSep_of_letter (List.all_eq_true.mp h c hc)]
  have hne2 : ((cc.filter (fun c => !isSep c)).map toUpperCh).isEmpty = false := by
    rw [hf]
    cases cc with
    | nil => exact absurd rfl hne
    | cons d t => rfl
  simp [mkCountryCode, hf, hne2, hne]

/-- General form of a strict-regex parse of `lang` + separator + 2–3
alphanumerics: an all-letter country group is captured and uppercased, while a
country group containing a digit is consumed by the variant group instead,
leaving `countryCode` absent. -/
lemma parseLocale_lang_sep_cc (lang : Str) (sep : Nat) (cc : Str)
    (hlang : lang.all isAsciiLetter = true) (hl2 : 2 ≤ lang.length) (hl3 : lang.length ≤ 3)
    (hsep : isSep sep = true)
    (hcc : cc.all isAlnum = true) (hc2 : 2 ≤ cc.length) (hc3 : cc.length ≤ 3) :
    parseLocale (lang ++ sep :: cc) =
      some ⟨lang.map toLowerCh,
            if cc.all isAsciiLetter then some (cc.map toUpperCh) else none⟩ := by
  have hne : (lang ++ sep :: cc).isEmpty = false := by cases lang <;> rfl
  have hg1 : lang.isEmpty = false := by
    cases lang with
    | nil => simp at hl2
    | cons a t => rfl
  have hsplit : splitSuffix (lang ++ sep :: cc) = lang ++ sep :: cc := by
    refine splitSuffix_eq_self fun c hc => ?_
    rcases List.mem_append.mp hc with hc | hc
    · exact Or.inl (by simp [isAlnum, List.all_eq_true.mp hlang c hc])
    · rcases List.mem_cons.mp hc with rfl | hc
      · exact Or.inr hsep
      · exact Or.inl (List.all_eq_true.mp hcc c hc)
  have hlen : ¬ (lang.map toLowerCh).length < 2 := by
    rw [List.length_map]
    omega
  have hccne : cc ≠ [] := by
    intro h0
    rw [h0] at hc2
    simp at hc2
  cases hlet : cc.all isAsciiLetter with
  | true =>
    have hct := execCountryTail_sep_letters hsep hlet hc2 hc3
    have hst : execStrict (lang ++ sep :: cc) = some (lang, some cc, none) := by
      simpa using execStrict_lang_sep hlang hl2 hl3 hsep hct
    rw [parseLocale_eq_of_strict hne hsplit hst hg1 hlen,
      mkCountryCode_letters hlet hccne]
    simp
  | false =>
    have hct := execCountryTail_sep_alnum hsep hcc hlet hc2 hc3
    have hst : execStrict (lang ++ sep :: cc) = some (lang, none, some cc) := by
      simpa using execStrict_lang_sep hlang hl2 hl3 hsep hct
    rw [parseLocale_eq_of_strict hne hsplit hst hg1 hlen, mkCountryCode_none]
    simp

/-! ### Claims -/

/-- C1, counterexample: `"ar-1a"` has a 2-letter language, a separator and a
2-alphanumeric country group containing a digit, yet `parseLocale` returns an
absent `countryCode`, not `"1A"` — the digit-bearing group is consumed by the
strict regex's variant group, whose country group admits letters only. -/
theorem claim_C1_counterexample :
    parseLocale (str "ar-1a") = some ⟨str "ar", none⟩ ∧
    parseLocale (str "ar-1a") ≠ some ⟨str "ar", some (str "1A")⟩ := by
  refine ⟨by decide, by decide⟩

/-- C1, amended: for `lang` of 2–3 letters, a `-`/`_` separator and a country
group of 2–3 alphanumerics, `parseLocale` returns the lowercased language
together with the uppercased country group when that group is all letters;
a country group containing a digit yields an absent `countryCode`. -/
theorem claim_C1 (lang : Str) (sep : Nat) (cc : Str)
    (hlang : lang.all isAsciiLetter = true) (hl2 : 2 ≤ lang.length) (hl3 : lang.length ≤ 3)
    (hsep : isSep sep = true)
    (hcc : cc.all isAlnum = true) (hc2 : 2 ≤ cc.length) (hc3 : cc.length ≤ 3) :
    parseLocale (lang ++ sep :: cc) =
      some ⟨lang.map toLowerCh,
            if cc.all isAsciiLetter then some (cc.map toUpperCh) else none⟩ :=
  parseLocale_lang_sep_cc lang sep cc hlang hl2 hl3 hsep hcc hc2 hc3

/-- Witness for C1 at `lang = "ar"`, `sep = '-'`, `cc = "SA"`. -/
theorem claim_C1_witness :
    parseLocale (str "ar" ++ 45 :: str "SA") =
      some ⟨(str "ar").map toLowerCh,
            if (str "SA").all isAsciiLetter then some ((str "SA").map toUpperCh) else none⟩ :=
  claim_C1 (str "ar") 45 (str "SA") (by decide) (by decide) (by decide) (by decide)
    (by decide) (by decide) (by decide)

/-- C2: separator count and kind do not matter — `ar-SA`, `ar_SA`, `ar---SA`
and `ar___SA` all parse to language `ar` with country code `SA`. -/
theorem claim_C2 :
    parseLocale (str "ar-SA") = some ⟨str "ar", some (str "SA")⟩ ∧
    parseLocale (str "ar_SA") = some ⟨str "ar", some (str "SA")⟩ ∧
    parseLocale (str "ar---SA") = some ⟨str "ar", some (str "SA")⟩ ∧
    parseLocale (str "ar___SA") = some ⟨str "ar", some (str "SA")⟩ := by
  refine ⟨by decide, by decide, by decide, by decide⟩

/-- C3: whenever `parseLocale` fails, `isRtlLanguage` returns `false` and
`getTextDirection` returns `ltr`; all three public operations are total
functions of the input string, so no input can raise. -/
theorem claim_C3 (s : Str) (h : parseLocale s = none) :
    isRtlLanguage s = false ∧ getTextDirection s = TextDirection.ltr := by
  have h1 : isRtlLanguage s = false := by rw [isRtlLanguage, h]
  exact ⟨h1, by simp [getTextDirection, h1]⟩

/-- Witness for C3 at the unparseable input `"!"`. -/
theorem claim_C3_witness :
    isRtlLanguage (str "!") = false ∧ getTextDirection (str "!") = TextDirection.ltr :=
  claim_C3 (str "!") (by decide)

/-- C4: every one of the 24 canonical codes is classified RTL, common LTR
codes are not, the explicit case variants of `ar` are RTL, and in general
classification of a 2–3 letter string in any letter case is membership of its
lowercasing in the code set. -/
theorem claim_C4 :
    (RTL_LANGUAGE_CODES_LITERAL.all (fun c => isRtlLanguage c) = true) ∧
    ([str "en", str "fr", str "de", str "es", str "ja", str "zh", str "ru", str "hi"].all
      (fun c => !isRtlLanguage c) = true) ∧
    (isRtlLanguage (str "AR") = true ∧ isRtlLanguage (str "Ar") = true ∧
      isRtlLanguage (str "aR") = true ∧ isRtlLanguage (str "ar") = true) ∧
    ∀ s : Str, s.all isAsciiLetter = true → 2 ≤ s.length →
      isRtlLanguage s = RTL_LANGUAGE_CODES.contains (s.map toLowerCh) := by
  refine ⟨by decide, by decide, ⟨by decide, by decide, by decide, by decide⟩, ?_⟩
  intro s hall h2
  rw [isRtlLanguage, parseLocale_of_letters hall h2]

/-- Witness for C4's general clause at `"AR"`. -/
theorem claim_C4_witness :
    isRtlLanguage (str "AR") = RTL_LANGUAGE_CODES.contains ((str "AR").map toLowerCh) :=
  claim_C4.2.2.2 (str "AR") (by decide) (by decide)

/-- C5: everything from the first `.` or `@` is stripped before any other
processing — parsing any string equals parsing its prefix before the first
such character — and the two concrete examples parse as stated. -/
theorem claim_C5 :
    (∀ s : Str, parseLocale s = parseLocale (splitSuffix s)) ∧
    parseLocale (str "en_US.UTF-8") = some ⟨str "en", some (str "US")⟩ ∧
    parseLocale (str "ar_EG@calendar=islamic") = some ⟨str "ar", some (str "EG")⟩ :=
  ⟨fun s => (parseLocale_splitSuffix s).symm, by decide, by decide⟩

/-- C6: the five degenerate inputs yield absent, and in general no returned
structure carries a language shorter than 2 — an input whose matched,
lowercased language group has length < 2 yields absent. -/
theorem claim_C6 :
    (parseLocale (str "") = none ∧ parseLocale (str "a") = none ∧
     parseLocale (str "-") = none ∧ parseLocale (str "_") = none ∧
     parseLocale (str "-US") = none) ∧
    ∀ (s : Str) (p : ParsedLocaleInfo), parseLocale s = some p → 2 ≤ p.language.length :=
  ⟨⟨by decide, by decide, by decide, by decide, by decide⟩,
   fun _ _ h => (parseLocale_spec h).1.1⟩

/-- Witness for C6's general clause at `"ar"`. -/
theorem claim_C6_witness : 2 ≤ (ParsedLocaleInfo.mk (str "ar") none).language.length :=
  claim_C6.2 (str "ar") ⟨str "ar", none⟩ (by decide)

/-- C7: compound BCP-47-style tags parse (via the permissive fallback), and
classification depends only on the language subtag: `ar-EG-x-variant` is RTL,
`en-US-x-variant` is not. -/
theorem claim_C7 :
    isRtlLanguage (str "ar-EG-x-variant") = true ∧
    isRtlLanguage (str "en-US-x-variant") = false ∧
    (parseLocale (str "ar-EG-x-variant")).isSome = true ∧
    (parseLocale (str "en-US-x-variant")).isSome = true := by
  refine ⟨by decide, by decide, by decide, by decide⟩

/-- C8: `getRtlLanguageCodes` is exactly the canonical 24-element list in
insertion order, without duplicates; as a pure value it is the same on every
call and cannot be mutated (the source freezes the returned array). -/
theorem claim_C8 :
    getRtlLanguageCodes = RTL_LANGUAGE_CODES_LITERAL ∧
    getRtlLanguageCodes.length = 24 ∧ getRtlLanguageCodes.Nodup := by
  refine ⟨by decide, by decide, by decide⟩

/-- C9: every structure `parseLocale` returns has a non-empty all-lower-case
language, and its country code, when present, is non-empty, all upper-case,
and free of `-`/`_`. -/
theorem claim_C9 (s : Str) (p : ParsedLocaleInfo) (h : parseLocale s = some p) :
    (p.language ≠ [] ∧ p.language.all isAsciiLowerCh = true) ∧
    ∀ cc, p.countryCode = some cc →
      cc ≠ [] ∧ cc.all isAsciiUpperCh = true ∧ cc.all (fun c => !isSep c) = true := by
  obtain ⟨⟨hlen, hlow⟩, hcc⟩ := parseLocale_spec h
  refine ⟨⟨?_, hlow⟩, fun cc h2 => ?_⟩
  · intro hnil
    rw [hnil] at hlen
    simp at hlen
  · obtain ⟨hne, hup⟩ := hcc cc h2
    refine ⟨hne, hup, List.all_eq_true.mpr fun c hc => ?_⟩
    have hb := List.all_eq_true.mp hup c hc
    simp only [isAsciiUpperCh, Bool.and_eq_true, decide_eq_true_eq] at hb
    simp only [isSep, Bool.not_eq_true']
    simp
    omega

/-- Witness for C9 at `"ar-SA"`. -/
theorem claim_C9_witness :
    ((ParsedLocaleInfo.mk (str "ar") (some (str "SA"))).language ≠ [] ∧
      (ParsedLocaleInfo.mk (str "ar") (some (str "SA"))).language.all isAsciiLowerCh = true) ∧
    ∀ cc, (ParsedLocaleInfo.mk (str "ar") (some (str "SA"))).countryCode = some cc →
      cc ≠ [] ∧ cc.all isAsciiUpperCh = true ∧ cc.all (fun c => !isSep c) = true :=
  claim_C9 (str "ar-SA") ⟨str "ar", some (str "SA")⟩ (by decide)

/-- C10, counterexample: `"ab"` consists of two ASCII letters, yet it is the
strict pattern — tried first by `??` — that matches it, so its parse does not
come from the permissive pattern as the claim asserts. -/
theorem claim_C10_counterexample :
    (str "ab").all isAsciiLetter = true ∧ 2 ≤ (str "ab").length ∧
    execStrict (splitSuffix (str "ab")) = some (str "ab", none, none) := by
  refine ⟨by decide, by decide, by decide⟩

/-- C10, amended: every string of two or more ASCII letters parses to its
lowercasing with an absent `countryCode` — the language length is not capped
at 3 — and for lengths at least 4 the strict pattern fails, success coming
from the permissive pattern (lengths 2–3 match the strict pattern instead). -/
theorem claim_C10 (s : Str) (h : s.all isAsciiLetter = true) (h2 : 2 ≤ s.length) :
    parseLocale s = some ⟨s.map toLowerCh, none⟩ ∧
    (4 ≤ s.length → execStrict s = none ∧ execPermissive s = some (s, [])) := by
  refine ⟨parseLocale_of_letters h h2, fun h4 => ?_⟩
  have hmem : ∀ c ∈ s, isAsciiLetter c = true := List.all_eq_true.mp h
  exact ⟨execStrict_of_long_letters hmem h4, execPermissive_of_letters hmem⟩

/-- Witness for C10 at `"invalid"` (7 letters). -/
theorem claim_C10_witness :
    parseLocale (str "invalid") = some ⟨(str "invalid").map toLowerCh, none⟩ ∧
    (4 ≤ (str "invalid").length →
      execStrict (str "invalid") = none ∧
      execPermissive (str "invalid") = some (str "invalid", [])) :=
  claim_C10 (str "invalid") (by decide) (by decide)

end RtlDetect
